import Mathlib

/-!
Shallow embedding of the aggregation and comparison engine of the
WQ-MANAGER backend (services `leaderboard_service.py` and
`dashboard_service.py`).  Floats are modelled as rationals, calendar
dates of the leaderboard service as integer day ordinals, and the
calendar dates of the dashboard service as explicit (year, month, day)
records.  Fallible parsing returns `Option`.
-/

namespace WQ

/-- Python `round(q * 10^n) / 10^n` uses banker's rounding (round half to
even); this is the integer-valued rounding step. -/
def roundHalfEven (q : ℚ) : ℤ :=
  if q - ⌊q⌋ < 1/2 then ⌊q⌋
  else if 1/2 < q - ⌊q⌋ then ⌊q⌋ + 1
  else if ⌊q⌋ % 2 = 0 then ⌊q⌋ else ⌊q⌋ + 1

/-- Python `round(q, n)` for a non-negative digit count `n`. -/
def pyRound (n : ℕ) (q : ℚ) : ℚ :=
  (roundHalfEven (q * 10 ^ n) : ℚ) / 10 ^ n

/-- `_median` from `leaderboard_service.py`: median of a list, with the
explicit policy that the empty list has median `0`. -/
def median (values : List ℚ) : ℚ :=
  if values = [] then 0
  else
    let sorted := values.mergeSort (fun a b => decide (a ≤ b))
    let mid := sorted.length / 2
    if sorted.length % 2 = 0 then
      (sorted.getD (mid - 1) 0 + sorted.getD mid 0) / 2
    else
      sorted.getD mid 0

/-- Python `int(q)` on a non-negative float truncates toward zero. -/
def pyint (q : ℚ) : ℤ :=
  if q < 0 then -⌊-q⌋ else ⌊q⌋

/-- Largest element of a non-empty list (Python `max(values)`). -/
def listMax (x : ℚ) (xs : List ℚ) : ℚ := xs.foldl max x

/-- Smallest element of a non-empty list (Python `min(values)`). -/
def listMin (x : ℚ) (xs : List ℚ) : ℚ := xs.foldl min x

/-- `counts[index] += 1` on a fixed-size count vector. -/
def bumpAt : List ℕ → ℕ → List ℕ
  | [], _ => []
  | c :: cs, 0 => (c + 1) :: cs
  | c :: cs, n + 1 => c :: bumpAt cs n

/-- Bin index from `_build_distribution`:
`min(int((value - min_value) / step), bins - 1)`. -/
def binIdx (minValue step : ℚ) (bins : ℕ) (v : ℚ) : ℕ :=
  min (pyint ((v - minValue) / step)).toNat (bins - 1)

/-- Output of `_build_distribution`.  The source renders each bin label as
the string `"{start:.4f}~{end:.4f}"` (a single `"{v:.4f}"` in the
degenerate case); we carry the numeric bounds that are formatted there. -/
structure Distribution where
  labels : List (ℚ × ℚ)
  counts : List ℕ
deriving DecidableEq, Repr

/-- `_build_distribution` from `leaderboard_service.py`.  Empty input gives
empty labels/counts; all-equal input gives one bin labelled by the value;
otherwise `bins` equal-width bins over `[min, max]` with the top edge
inclusive into the last bin. -/
def build_distribution (values : List ℚ) (bins : ℕ) : Distribution :=
  match values with
  | [] => ⟨[], []⟩
  | v0 :: rest =>
    let minValue := listMin v0 rest
    let maxValue := listMax v0 rest
    if minValue = maxValue then
      ⟨[(minValue, minValue)], [(v0 :: rest).length]⟩
    else
      let step := (maxValue - minValue) / bins
      let labels := (List.range bins).map (fun i =>
        (minValue + step * i,
         if i = bins - 1 then maxValue else minValue + step * (i + 1)))
      let counts := (v0 :: rest).foldl
        (fun acc v => bumpAt acc (binIdx minValue step bins v))
        (List.replicate bins 0)
      ⟨labels, counts⟩

/-- Day-over-day change list used by `get_country_submission_time_series`
(submissions and super-alpha submissions) and
`get_genius_country_time_series` (alpha counts): index 0 gets 0, index
`i > 0` gets `xs[i] - xs[i-1]`. -/
def changeSeries (xs : List ℤ) : List ℤ :=
  (List.range xs.length).map (fun i =>
    if i = 0 then 0 else xs.getD i 0 - xs.getD (i - 1) 0)

/-- Paginated envelope `{total, page, page_size, items}`. -/
structure Page (α : Type) where
  total : ℕ
  page : ℕ
  pageSize : ℕ
  items : List α
deriving DecidableEq, Repr

/-- Map a function over the items of a page, as the source does when
rounding fields of the sliced rows for serialization. -/
def Page.mapItems (f : α → β) (p : Page α) : Page β :=
  ⟨p.total, p.page, p.pageSize, p.items.map f⟩

/-- Pagination shared by `get_value_factor_user_changes` and
`get_combined_user_changes`: clamp page and page size to at least 1, report
the pre-pagination length as total, and slice
`rows[(page-1)*size : page*size]`.  (Negative caller values, possible in
the source, clamp to 1 exactly like 0 does here.) -/
def paginate (rows : List α) (page pageSize : ℕ) : Page α :=
  let safePage := max page 1
  let safePageSize := max pageSize 1
  ⟨rows.length, safePage, safePageSize,
   (rows.drop ((safePage - 1) * safePageSize)).take safePageSize⟩

/-- Change attachment in `get_country_leaderboard`: given the current
weight and the optional baseline-row weight, return
`(weight_change, weight_change_percent)`.  A baseline of zero and an
absent baseline row both yield 100.0 percent (growth from zero). -/
def countryWeightChange (current : ℚ) (historical : Option ℚ) : ℚ × ℚ :=
  match historical with
  | some h => (current - h, if h ≠ 0 then (current - h) / h * 100 else 100)
  | none => (current, 100)

/-- One row of the genius-user/consultant-user join in
`get_genius_user_weight_changes`, ordered by (user, record_date). -/
structure GeniusJoinRow where
  user : String
  genius_level : Option String
  country : Option String
  record_date : ℤ
  weight_factor : Option ℚ
deriving DecidableEq, Repr

/-- Accumulated per-user entry of the `user_map` loop. -/
structure GeniusEntry where
  user : String
  genius_level : Option String
  country : Option String
  start_weight : ℚ
  end_weight : ℚ
deriving DecidableEq, Repr

/-- Python truthiness of an optional string (`None` and `""` are falsy). -/
def truthyStr : Option String → Bool
  | none => false
  | some s => s ≠ ""

/-- Update an existing `user_map` entry with a later row for the same user. -/
def updGeniusEntry (e : GeniusEntry) (row : GeniusJoinRow) (w : ℚ) : GeniusEntry :=
  { e with
    end_weight := w,
    genius_level :=
      if e.genius_level = none && truthyStr row.genius_level then row.genius_level
      else e.genius_level,
    country :=
      if e.country = none && truthyStr row.country then row.country
      else e.country }

/-- The `user_map` loop of `get_genius_user_weight_changes`: a dict keyed
by user in insertion order; the first row of a user sets start and end
weight, later rows move the end weight. Rows with an empty user are
skipped. -/
def geniusFold (acc : List GeniusEntry) : List GeniusJoinRow → List GeniusEntry
  | [] => acc
  | row :: rest =>
    if row.user = "" then geniusFold acc rest
    else
      let w := row.weight_factor.getD 0
      let acc2 :=
        if acc.any (fun e => e.user == row.user) then
          acc.map (fun e => if e.user == row.user then updGeniusEntry e row w else e)
        else
          acc ++ [⟨row.user, row.genius_level, row.country, w, w⟩]
      geniusFold acc2 rest

/-- One result record of `get_genius_user_weight_changes` before rank
assignment. -/
structure GeniusChange where
  user : String
  genius_level : Option String
  country : Option String
  start_weight : ℚ
  end_weight : ℚ
  weight_change : ℚ
  weight_change_percent : Option ℚ
deriving DecidableEq, Repr

/-- The results-building step of `get_genius_user_weight_changes`:
`weight_change = end - start`, and the percent is
`(change / start) * 100` when the start weight is non-zero, else null. -/
def finalizeGeniusEntry (e : GeniusEntry) : GeniusChange :=
  let change := e.end_weight - e.start_weight
  ⟨e.user, e.genius_level, e.country, e.start_weight, e.end_weight, change,
   if e.start_weight ≠ 0 then some (change / e.start_weight * 100) else none⟩

/-- Stable sort of the results by `weight_change` (`asc` or default desc). -/
def sortGeniusResults (order : String) (l : List GeniusChange) : List GeniusChange :=
  if order = "asc" then
    l.mergeSort (fun a b => decide (a.weight_change ≤ b.weight_change))
  else
    l.mergeSort (fun a b => decide (b.weight_change ≤ a.weight_change))

/-- Percentile assignment of `get_genius_user_weight_changes`: for `total`
ranked entities and 1-based `rank`, 100.0 when `total ≤ 1`, else
`round((1 - (rank-1)/(total-1)) * 100, 2)`. -/
def percentileOf (total rank : ℕ) : ℚ :=
  if total ≤ 1 then 100
  else pyRound 2 ((1 - ((rank : ℚ) - 1) / ((total : ℚ) - 1)) * 100)

/-- A ranked result entry: the record plus its 1-based rank and percentile. -/
structure RankedGeniusChange where
  entry : GeniusChange
  rank : ℕ
  percentile : ℚ
deriving DecidableEq, Repr

/-- The enumerate loop attaching rank `idx` (1-based) and percentile. -/
def assignRankPercentile (l : List GeniusChange) : List RankedGeniusChange :=
  l.enum.map (fun p => ⟨p.2, p.1 + 1, percentileOf l.length (p.1 + 1)⟩)

/-- `get_genius_user_weight_changes` over the already-joined, already
(user, date)-ordered rows. -/
def get_genius_user_weight_changes (rows : List GeniusJoinRow) (order : String) :
    List RankedGeniusChange :=
  assignRankPercentile (sortGeniusResults order ((geniusFold [] rows).map finalizeGeniusEntry))

/-- One row of the base/target outer join over the user union in
`get_value_factor_analysis` / `get_value_factor_user_changes`.  The two
value factors are null exactly when the user has no measured value factor
on that date (the per-date subqueries filter `value_factor IS NOT NULL`). -/
structure VFRow where
  user : String
  target_value_factor : Option ℚ
  base_value_factor : Option ℚ
  country : Option String
  university : Option String
  genius_level : Option String
deriving DecidableEq, Repr

/-- A comparable value-factor row (both dates measured). -/
structure VFComparable where
  user : String
  country : Option String
  university : Option String
  genius_level : Option String
  base_value_factor : ℚ
  target_value_factor : ℚ
  change : ℚ
deriving DecidableEq, Repr

/-- The near-midpoint exclusion test of the value-factor paths:
`abs(base - 0.5) < 1e-9 and abs(target - 0.5) < 1e-9`. -/
def vfBothHalf (b t : ℚ) : Bool :=
  decide (|b - 1/2| < 1/1000000000) && decide (|t - 1/2| < 1/1000000000)

/-- Membership counters plus comparable rows of
`get_value_factor_analysis`. -/
structure VFPayload where
  users_on_target_date : ℕ
  users_on_base_date : ℕ
  new_users : ℕ
  missing_users : ℕ
  rows : List VFComparable
deriving DecidableEq, Repr

/-- The row loop of `get_value_factor_analysis`: count presence on each
date, count target-only as new and base-only as missing, and keep the
rows with both sides measured that survive the optional both-half
exclusion as comparable rows (in input order). -/
def vfCollect (exclude_both_half : Bool) : List VFRow → VFPayload
  | [] => ⟨0, 0, 0, 0, []⟩
  | r :: rest =>
    let p := vfCollect exclude_both_half rest
    let tSome := r.target_value_factor.isSome
    let bSome := r.base_value_factor.isSome
    let contrib : List VFComparable :=
      match r.target_value_factor, r.base_value_factor with
      | some t, some b =>
        if exclude_both_half && vfBothHalf b t then []
        else [⟨r.user, r.country, r.university, r.genius_level, b, t, t - b⟩]
      | _, _ => []
    ⟨p.users_on_target_date + (if tSome then 1 else 0),
     p.users_on_base_date + (if bSome then 1 else 0),
     p.new_users + (if tSome && !bSome then 1 else 0),
     p.missing_users + (if bSome && !tSome then 1 else 0),
     contrib ++ p.rows⟩

/-- Python truthiness plus membership for the optional country /
genius-level filters: `if sel and value not in sel: continue`. -/
def filterPass (sel : Option (List String)) (v : Option String) : Bool :=
  match sel with
  | none => true
  | some l =>
    if l = [] then true
    else
      match v with
      | none => false
      | some s => l.contains s

/-- The filtering loop of `get_value_factor_user_changes`: keep rows with
both sides measured, drop both-half rows when requested, then apply the
country and genius-level filters (in source order). -/
def vfChangesFilteredRows (exclude_both_half : Bool)
    (countries genius_levels : Option (List String)) : List VFRow → List VFComparable
  | [] => []
  | r :: rest =>
    let tail := vfChangesFilteredRows exclude_both_half countries genius_levels rest
    match r.target_value_factor, r.base_value_factor with
    | some t, some b =>
      if exclude_both_half && vfBothHalf b t then tail
      else if !filterPass countries r.country then tail
      else if !filterPass genius_levels r.genius_level then tail
      else ⟨r.user, r.country, r.university, r.genius_level, b, t, t - b⟩ :: tail
    | _, _ => tail

/-- Sort-field dispatch of `get_value_factor_user_changes`: any `sort_by`
outside the allowed set falls back to `change`. -/
def vfSortField (sort_by : String) (r : VFComparable) : ℚ :=
  if sort_by = "base_value_factor" then r.base_value_factor
  else if sort_by = "target_value_factor" then r.target_value_factor
  else r.change

/-- Stable sort of the filtered rows (`reverse = sort_order != "asc"`). -/
def sortVFRows (sort_by sort_order : String) (l : List VFComparable) : List VFComparable :=
  if sort_order = "asc" then
    l.mergeSort (fun a b => decide (vfSortField sort_by a ≤ vfSortField sort_by b))
  else
    l.mergeSort (fun a b => decide (vfSortField sort_by b ≤ vfSortField sort_by a))

/-- A serialized item of `get_value_factor_user_changes` (values rounded
to 4 decimal places at the boundary). -/
structure VFItem where
  user : String
  country : Option String
  university : Option String
  genius_level : Option String
  base_value_factor : ℚ
  target_value_factor : ℚ
  change : ℚ
deriving DecidableEq, Repr

/-- `get_value_factor_user_changes`: filter, sort, paginate, round. -/
def get_value_factor_user_changes (rows : List VFRow) (sort_by sort_order : String)
    (page page_size : ℕ) (countries genius_levels : Option (List String))
    (exclude_both_half : Bool) : Page VFItem :=
  (paginate
    (sortVFRows sort_by sort_order
      (vfChangesFilteredRows exclude_both_half countries genius_levels rows))
    page page_size).mapItems
    (fun r => ⟨r.user, r.country, r.university, r.genius_level,
      pyRound 4 r.base_value_factor, pyRound 4 r.target_value_factor, pyRound 4 r.change⟩)

/-- The aggregate block of `get_value_factor_analysis` computed from the
comparable rows (counts use strict sign tests on the change). -/
structure VFSummaryStats where
  comparable_users : ℕ
  increased_users : ℕ
  decreased_users : ℕ
  unchanged_users : ℕ
  avg_target_value_factor : ℚ
  avg_base_value_factor : ℚ
  avg_change : ℚ
  median_change : ℚ
  max_increase : ℚ
  max_decrease : ℚ
deriving DecidableEq, Repr

/-- Aggregates of `get_value_factor_analysis` over its comparable rows. -/
def vfSummary (rows : List VFComparable) : VFSummaryStats :=
  let changes := rows.map (fun r => r.change)
  let targets := rows.map (fun r => r.target_value_factor)
  let bases := rows.map (fun r => r.base_value_factor)
  { comparable_users := rows.length,
    increased_users := (changes.filter (fun c => decide (0 < c))).length,
    decreased_users := (changes.filter (fun c => decide (c < 0))).length,
    unchanged_users := (changes.filter (fun c => decide (c = 0))).length,
    avg_target_value_factor :=
      if targets = [] then 0 else pyRound 4 (targets.sum / targets.length),
    avg_base_value_factor :=
      if bases = [] then 0 else pyRound 4 (bases.sum / bases.length),
    avg_change :=
      if changes = [] then 0 else pyRound 4 (changes.sum / changes.length),
    median_change := pyRound 4 (median changes),
    max_increase :=
      match changes with
      | [] => 0
      | c :: cs => pyRound 4 (listMax c cs),
    max_decrease :=
      match changes with
      | [] => 0
      | c :: cs => pyRound 4 (listMin c cs) }

/-- User union of the two per-date subqueries (SQL `UNION` deduplicates;
its order is unspecified). -/
def unionUsers (target base : List (String × ℚ)) : List String :=
  ((target.map Prod.fst) ++ (base.map Prod.fst)).dedup

/-- The outer join of `get_value_factor_analysis` reconstructed from the
two per-date (user, value_factor) maps: one row per user of the union,
carrying the measured value of each side when present. -/
def mkVFRows (target base : List (String × ℚ)) : List VFRow :=
  (unionUsers target base).map
    (fun u => ⟨u, target.lookup u, base.lookup u, none, none, none⟩)

/-- One row of the base/target outer join over the genius-user union in
`_collect_combined_rows`. -/
structure CombRow where
  user : String
  target_alpha : Option ℚ
  base_alpha : Option ℚ
  target_power_pool : Option ℚ
  base_power_pool : Option ℚ
  target_selected : Option ℚ
  base_selected : Option ℚ
  country : Option String
  genius_level : Option String
deriving DecidableEq, Repr

/-- A comparable combined row (all three metrics measured on both dates). -/
structure CombComparable where
  user : String
  country : Option String
  genius_level : Option String
  base_alpha : ℚ
  target_alpha : ℚ
  alpha_change : ℚ
  base_power_pool : ℚ
  target_power_pool : ℚ
  power_pool_change : ℚ
  base_selected : ℚ
  target_selected : ℚ
  selected_change : ℚ
deriving DecidableEq, Repr

/-- The near-zero test of the combined exclusions: `abs(x) < 1e-12`. -/
def nearZero12 (x : ℚ) : Bool :=
  decide (|x| < 1/1000000000000)

/-- Keyword arguments of `_collect_combined_rows`. -/
structure CombParams where
  countries : Option (List String)
  genius_levels : Option (List String)
  exclude_alpha_both_zero : Bool
  exclude_power_pool_both_zero : Bool
  exclude_selected_both_zero : Bool
deriving DecidableEq, Repr

/-- `_collect_combined_rows` with every filter off. -/
def combNoFilters : CombParams := ⟨none, none, false, false, false⟩

/-- Membership counters plus comparable rows of `_collect_combined_rows`. -/
structure CombPayload where
  users_on_target_date : ℕ
  users_on_base_date : ℕ
  new_users : ℕ
  missing_users : ℕ
  rows : List CombComparable
deriving DecidableEq, Repr

/-- Target side ready: all three combined metrics measured on the target
date. -/
def combTargetReady (r : CombRow) : Bool :=
  r.target_alpha.isSome && r.target_power_pool.isSome && r.target_selected.isSome

/-- Base side ready: all three combined metrics measured on the base date. -/
def combBaseReady (r : CombRow) : Bool :=
  r.base_alpha.isSome && r.base_power_pool.isSome && r.base_selected.isSome

/-- The row loop of `_collect_combined_rows`: membership counters are
incremented before the country/level filters and the per-metric both-zero
exclusions drop a row from the comparable list. -/
def collect_combined_rows (ps : CombParams) : List CombRow → CombPayload
  | [] => ⟨0, 0, 0, 0, []⟩
  | r :: rest =>
    let p := collect_combined_rows ps rest
    let tReady := combTargetReady r
    let bReady := combBaseReady r
    let contrib : List CombComparable :=
      match r.target_alpha, r.target_power_pool, r.target_selected,
            r.base_alpha, r.base_power_pool, r.base_selected with
      | some ta, some tp, some ts, some ba, some bp, some bs =>
        if !filterPass ps.countries r.country then []
        else if !filterPass ps.genius_levels r.genius_level then []
        else if ps.exclude_alpha_both_zero && nearZero12 ba && nearZero12 ta then []
        else if ps.exclude_power_pool_both_zero && nearZero12 bp && nearZero12 tp then []
        else if ps.exclude_selected_both_zero && nearZero12 bs && nearZero12 ts then []
        else [⟨r.user, r.country, r.genius_level,
               ba, ta, ta - ba, bp, tp, tp - bp, bs, ts, ts - bs⟩]
      | _, _, _, _, _, _ => []
    ⟨p.users_on_target_date + (if tReady then 1 else 0),
     p.users_on_base_date + (if bReady then 1 else 0),
     p.new_users + (if tReady && !bReady then 1 else 0),
     p.missing_users + (if bReady && !tReady then 1 else 0),
     contrib ++ p.rows⟩

/-- Sort-key dispatch of `get_combined_user_changes` (map lookup with
default `alpha_change`). -/
def combSortField (sort_by : String) (r : CombComparable) : ℚ :=
  if sort_by = "power_pool_change" then r.power_pool_change
  else if sort_by = "selected_change" then r.selected_change
  else if sort_by = "base_alpha" then r.base_alpha
  else if sort_by = "target_alpha" then r.target_alpha
  else if sort_by = "base_power_pool" then r.base_power_pool
  else if sort_by = "target_power_pool" then r.target_power_pool
  else if sort_by = "base_selected" then r.base_selected
  else if sort_by = "target_selected" then r.target_selected
  else r.alpha_change

/-- Stable sort of the comparable combined rows. -/
def sortCombRows (sort_by sort_order : String) (l : List CombComparable) : List CombComparable :=
  if sort_order = "asc" then
    l.mergeSort (fun a b => decide (combSortField sort_by a ≤ combSortField sort_by b))
  else
    l.mergeSort (fun a b => decide (combSortField sort_by b ≤ combSortField sort_by a))

/-- `get_combined_user_changes`: collect, sort, paginate (rounding of the
serialized fields elided — the slice is of the unrounded rows). -/
def get_combined_user_changes (rows : List CombRow) (sort_by sort_order : String)
    (page page_size : ℕ) (ps : CombParams) : Page CombComparable :=
  paginate (sortCombRows sort_by sort_order (collect_combined_rows ps rows).rows)
    page page_size

/-- A calendar date as carried by `dashboard_service.py` (`datetime` with
no meaningful time component). -/
structure QDate where
  year : ℤ
  month : ℕ
  day : ℕ
deriving DecidableEq, Repr

/-- Gregorian leap-year rule (as in Python `datetime`). -/
def isLeapYear (y : ℤ) : Bool :=
  (y % 4 == 0 && y % 100 != 0) || (y % 400 == 0)

/-- Number of days of a month. -/
def daysInMonth (y : ℤ) : ℕ → ℕ
  | 1 => 31
  | 2 => if isLeapYear y then 29 else 28
  | 3 => 31
  | 4 => 30
  | 5 => 31
  | 6 => 30
  | 7 => 31
  | 8 => 31
  | 9 => 30
  | 10 => 31
  | 11 => 30
  | 12 => 31
  | _ => 0

/-- `some_date - timedelta(days=1)`. -/
def prevDay (d : QDate) : QDate :=
  if 1 < d.day then ⟨d.year, d.month, d.day - 1⟩
  else if 1 < d.month then ⟨d.year, d.month - 1, daysInMonth d.year (d.month - 1)⟩
  else ⟨d.year - 1, 12, 31⟩

/-- Numeric value of a decimal digit character. -/
def digitVal (c : Char) : ℕ := c.toNat - 48

/-- The regex `^(\d{4})-Q([1-4])$` shared by `parse_quarter` and
`get_previous_quarter_end`: the token must be exactly four digits, a
dash, `Q`, and a quarter digit 1-4; on success returns (year, quarter). -/
def parseQuarterToken (s : String) : Option (ℤ × ℕ) :=
  match s.data with
  | [a, b, c, d, e, f, g] =>
    if a.isDigit && b.isDigit && c.isDigit && d.isDigit
        && e == '-' && f == 'Q' && ('1' ≤ g && g ≤ '4') then
      some (((1000 * digitVal a + 100 * digitVal b + 10 * digitVal c + digitVal d : ℕ) : ℤ),
            digitVal g)
    else none
  | _ => none

/-- `parse_quarter` from `dashboard_service.py`: `(None, None)` on an
empty or unmatched token, otherwise the first and last calendar day of
the quarter (the last day computed as the day before the first of the
following month, except December which is 31 directly). -/
def parse_quarter (s : String) : Option (QDate × QDate) :=
  match parseQuarterToken s with
  | none => none
  | some (y, q) =>
    let startMonth := (q - 1) * 3 + 1
    let endMonth := q * 3
    let quarterEnd := if endMonth = 12 then ⟨y, 12, 31⟩ else prevDay ⟨y, endMonth + 1, 1⟩
    some (⟨y, startMonth, 1⟩, quarterEnd)

/-- `get_previous_quarter_end` from `dashboard_service.py`: decrement the
quarter, wrapping Q1 to Q4 of the prior year, and return that quarter's
last calendar day. -/
def get_previous_quarter_end (s : String) : Option QDate :=
  match parseQuarterToken s with
  | none => none
  | some (y, q) =>
    let prevYear := if q = 1 then y - 1 else y
    let prevQuarter := if q = 1 then 4 else q - 1
    let prevEndMonth := prevQuarter * 3
    some (if prevEndMonth = 12 then ⟨prevYear, 12, 31⟩
          else prevDay ⟨prevYear, prevEndMonth + 1, 1⟩)

/-- Calendar order on dates (year, then month, then day). -/
def dateLe (a b : QDate) : Bool :=
  decide (a.year < b.year)
    || (a.year == b.year
        && (decide (a.month < b.month)
            || (a.month == b.month && decide (a.day ≤ b.day))))

/-- Strict calendar order on dates. -/
def dateLt (a b : QDate) : Bool :=
  dateLe a b && !(a == b)

/-- SQL `MAX(record_date)` over a date list: none when empty. -/
def maxDate : List QDate → Option QDate
  | [] => none
  | x :: xs => some (xs.foldl (fun a b => if dateLe a b then b else a) x)

/-- A country/region snapshot row as seen by the date resolution of
`get_country_rankings` (only the snapshot date and delete flag matter). -/
structure CountryRegionRow where
  country : Option String
  record_date : QDate
  delete_flag : Bool
  weight_factor : Option ℚ
deriving DecidableEq, Repr

/-- The date resolution of `get_country_rankings` (lines 105-147): parse
the quarter token; the target date is the latest snapshot at or before
the quarter end (or the global latest when the token is empty or does not
parse); with a non-empty token the baseline is the latest snapshot at or
before the previous quarter's end (none when the token does not parse);
with an empty token the baseline is the latest snapshot strictly before
the target.  `none` means the store is empty and the caller returns
`([], 0)`. -/
def resolveCountryRankingDates (store : List CountryRegionRow) (quarter : String) :
    Option (QDate × Option QDate) :=
  let dates := (store.filter (fun r => !r.delete_flag)).map (fun r => r.record_date)
  let quarterEnd := (parse_quarter quarter).map Prod.snd
  let latest :=
    match quarterEnd with
    | none => maxDate dates
    | some qe => maxDate (dates.filter (fun d => dateLe d qe))
  match latest with
  | none => none
  | some latestDate =>
    let startDate :=
      if quarter ≠ "" then
        match get_previous_quarter_end quarter with
        | some cd => maxDate (dates.filter (fun d => dateLe d cd))
        | none => none
      else
        maxDate (dates.filter (fun d => dateLt d latestDate))
    some (latestDate, startDate)

/-- Python `str.strip()` restricted to the whitespace the identifiers in
this store can carry: drop whitespace from both ends of the character
list. -/
def stripStr (s : String) : String :=
  ⟨((s.data.dropWhile Char.isWhitespace).reverse.dropWhile Char.isWhitespace).reverse⟩

/-- Python `str.upper()`: uppercase each character. -/
def upperStr (s : String) : String :=
  ⟨s.data.map Char.toUpper⟩

/-- A consultant-user snapshot row as seen by
`get_user_weight_time_series` (dates as integer day ordinals). -/
structure ConsultantUserRow where
  user : String
  record_date : ℤ
  weight_factor : Option ℚ
  delete_flag : Bool
deriving DecidableEq, Repr

/-- The time-series envelope `{user, dates, weights}`. -/
structure UserTS where
  user : String
  dates : List ℤ
  weights : List ℚ
deriving DecidableEq, Repr

/-- SQL `MAX` over integer day ordinals. -/
def maxOrd : List ℤ → Option ℤ
  | [] => none
  | x :: xs => some (xs.foldl max x)

/-- `get_user_weight_time_series` from `leaderboard_service.py`: the user
identifier is stripped and upper-cased first; an empty or whitespace-only
identifier short-circuits to an empty result; otherwise missing range
ends resolve from the user's latest snapshot (start defaulting to 29 days
before the end) and the rows of that user in range are returned ordered
by date, with null weights read as 0. -/
def get_user_weight_time_series (store : List ConsultantUserRow) (user : String)
    (start0 end0 : Option ℤ) : UserTS :=
  let normalized := if user = "" then "" else upperStr (stripStr user)
  if normalized = "" then ⟨"", [], []⟩
  else
    let resolved : Option (ℤ × ℤ) :=
      match start0, end0 with
      | some s, some e => some (s, e)
      | _, _ =>
        let userDates :=
          (store.filter (fun r => !r.delete_flag && r.user == normalized)).map
            (fun r => r.record_date)
        match maxOrd userDates with
        | none => none
        | some latest =>
          let e := end0.getD latest
          some (start0.getD (e - 29), e)
    match resolved with
    | none => ⟨normalized, [], []⟩
    | some (s, e) =>
      let rowsInRange :=
        ((store.filter (fun r =>
            !r.delete_flag && r.user == normalized
              && decide (s ≤ r.record_date) && decide (r.record_date ≤ e))).mergeSort
          (fun a b => decide (a.record_date ≤ b.record_date)))
      ⟨normalized, rowsInRange.map (fun r => r.record_date),
       rowsInRange.map (fun r => r.weight_factor.getD 0)⟩

/-- A joined value-factor row on which the both-half exclusion of
`get_value_factor_analysis` fires: both sides measured and both within
1e-9 of 0.5. -/
def vfExcludedRow (r : VFRow) : Bool :=
  match r.target_value_factor, r.base_value_factor with
  | some t, some b => vfBothHalf b t
  | _, _ => false

/-- A joined combined row on which the alpha both-zero exclusion of
`_collect_combined_rows` fires: both alpha values measured and both
within 1e-12 of 0. -/
def combAlphaExcludedRow (r : CombRow) : Bool :=
  match r.base_alpha, r.target_alpha with
  | some ba, some ta => nearZero12 ba && nearZero12 ta
  | _, _ => false

/-- `_collect_combined_rows` with only the alpha both-zero exclusion on. -/
def combExAlphaOnly : CombParams := ⟨none, none, true, false, false⟩

/-! ### Shared facts about rounding -/

theorem roundHalfEven_intCast (z : ℤ) : roundHalfEven (z : ℚ) = z := by
  norm_num [roundHalfEven, Int.floor_intCast]

theorem pyRound_intCast (n : ℕ) (z : ℤ) : pyRound n (z : ℚ) = z := by
  have h : ((z : ℚ) * 10 ^ n) = ((z * 10 ^ n : ℤ) : ℚ) := by push_cast; ring
  rw [pyRound, h, roundHalfEven_intCast]
  push_cast
  rw [mul_div_assoc, div_self (by positivity), mul_one]

theorem pyRound_onehundred : pyRound 2 (100 : ℚ) = 100 := by
  have h := pyRound_intCast 2 100
  norm_num at h
  exact h

theorem pyRound_zero : pyRound 2 (0 : ℚ) = 0 := by
  have h := pyRound_intCast 2 0
  norm_num at h
  exact h

/-! ### C2 — percentile formula -/

/-- C2: for `N` ranked entities and 1-based rank `r`, the percentile is
100.0 when `N ≤ 1` and `round((1 - (r-1)/(N-1)) * 100, 2)` otherwise; in
particular rank 1 always gets 100.0 and rank `N` gets 0.0 for `N > 1`,
and the ranking loop of `get_genius_user_weight_changes` attaches rank
`i+1` and exactly this percentile to the `i`-th sorted entry. -/
theorem c2_percentile :
    (∀ total rank, total ≤ 1 → percentileOf total rank = 100) ∧
    (∀ total rank, 1 < total →
      percentileOf total rank = pyRound 2 ((1 - ((rank : ℚ) - 1) / ((total : ℚ) - 1)) * 100)) ∧
    (∀ total, percentileOf total 1 = 100) ∧
    (∀ total, 1 < total → percentileOf total total = 0) ∧
    (∀ l : List GeniusChange, ∀ i : ℕ,
      (assignRankPercentile l)[i]? =
        l[i]?.map (fun e => ⟨e, i + 1, percentileOf l.length (i + 1)⟩)) := by
  refine ⟨?_, ?_, ?_, ?_, ?_⟩
  · intro t r h
    simp [percentileOf, h]
  · intro t r h
    rw [percentileOf, if_neg (by omega)]
  · intro t
    by_cases h : t ≤ 1
    · simp [percentileOf, h]
    · rw [percentileOf, if_neg h]
      norm_num
      exact pyRound_onehundred
  · intro t ht
    rw [percentileOf, if_neg (by omega)]
    have hne : ((t : ℚ) - 1) ≠ 0 := by
      have : (1 : ℚ) < t := by exact_mod_cast ht
      linarith
    rw [div_self hne]
    norm_num
    exact pyRound_zero
  · intro l i
    simp only [assignRankPercentile, List.getElem?_map, List.getElem?_enum, Option.map_map]
    rfl

/-- C2 witness at `N = 3`. -/
theorem c2_percentile_witness :
    percentileOf 1 1 = 100 ∧ percentileOf 3 1 = 100 ∧ percentileOf 3 3 = 0 ∧
    percentileOf 3 2 = pyRound 2 ((1 - ((2 : ℚ) - 1) / ((3 : ℚ) - 1)) * 100) :=
  ⟨c2_percentile.1 1 1 (by norm_num), c2_percentile.2.2.1 3,
   c2_percentile.2.2.2.1 3 (by norm_num), c2_percentile.2.1 3 2 (by norm_num)⟩

/-! ### C6 — pagination -/

theorem paginate_flatten {α : Type} (l : List α) (s : ℕ) (hs : 1 ≤ s) (n : ℕ) :
    ((List.range n).map (fun k => (paginate l (k + 1) s).items)).flatten = l.take (n * s) := by
  induction n with
  | zero => simp
  | succ n ih =>
    rw [List.range_succ, List.map_append, List.flatten_append]
    simp only [List.map_cons, List.map_nil, List.flatten_cons, List.flatten_nil, List.append_nil]
    rw [ih, Nat.succ_mul, List.take_add]
    congr 1
    simp [paginate, Nat.max_eq_left hs]

/-- C6: with `page ≥ 1` and `page_size ≥ 1`, the pagination shared by
`get_value_factor_user_changes` and `get_combined_user_changes` returns
exactly the slice `[(page-1)*size, page*size)` of the full filtered
sorted list, reports the pre-pagination length as total, and the pages
over `1..n` (with `n` pages covering the list) concatenate back to the
full list without overlap or gap, their lengths summing to the total. -/
theorem c6_pagination {α : Type} (rows : List α) (page pageSize : ℕ)
    (hp : 1 ≤ page) (hs : 1 ≤ pageSize) :
    (paginate rows page pageSize).items =
      (rows.drop ((page - 1) * pageSize)).take pageSize ∧
    (paginate rows page pageSize).total = rows.length ∧
    (∀ n, rows.length ≤ n * pageSize →
      ((List.range n).map (fun k => (paginate rows (k + 1) pageSize).items)).flatten = rows) ∧
    (∀ n, rows.length ≤ n * pageSize →
      (((List.range n).map (fun k => (paginate rows (k + 1) pageSize).items)).map
        List.length).sum = (paginate rows page pageSize).total) := by
  refine ⟨?_, rfl, ?_, ?_⟩
  · simp [paginate, Nat.max_eq_left hp, Nat.max_eq_left hs]
  · intro n hn
    rw [paginate_flatten rows pageSize hs n]
    exact List.take_of_length_le hn
  · intro n hn
    rw [← List.length_flatten, paginate_flatten rows pageSize hs n,
      List.take_of_length_le hn]
    rfl

/-- C6 witness: 25 rows, page 2 of size 10 is rows 10-19 with total 25,
and 3 pages of size 10 concatenate back to the full list. -/
theorem c6_pagination_witness :
    (paginate (List.range 25) 2 10).items = ((List.range 25).drop 10).take 10 ∧
    (paginate (List.range 25) 2 10).total = 25 ∧
    ((List.range 3).map (fun k => (paginate (List.range 25) (k + 1) 10).items)).flatten =
      List.range 25 := by
  have h := c6_pagination (List.range 25) 2 10 (by norm_num) (by norm_num)
  exact ⟨by simpa using h.1, by simpa using h.2.1, h.2.2.1 3 (by simp)⟩

/-! ### C9 — day-over-day deltas -/

/-- C9: the day-over-day change list of the counter time series
(`get_country_submission_time_series`, `get_genius_country_time_series`)
has the same length as the value list, starts with exactly 0 for any
non-empty sequence, and its later entries are the consecutive
differences. -/
theorem c9_day_over_day (xs : List ℤ) :
    (changeSeries xs).length = xs.length ∧
    (xs ≠ [] → (changeSeries xs).getD 0 0 = 0) ∧
    (∀ i, 0 < i → i < xs.length →
      (changeSeries xs).getD i 0 = xs.getD i 0 - xs.getD (i - 1) 0) := by
  refine ⟨by simp [changeSeries], ?_, ?_⟩
  · intro h
    have hlen : 0 < xs.length := List.length_pos.mpr h
    rw [List.getD_eq_getElem?_getD, changeSeries, List.getElem?_map, List.getElem?_range hlen]
    simp
  · intro i h0 hlen
    rw [List.getD_eq_getElem?_getD, changeSeries, List.getElem?_map, List.getElem?_range hlen]
    simp [Nat.pos_iff_ne_zero.mp h0]

/-- C9 witness on the series `[100, 102, 101]`. -/
theorem c9_day_over_day_witness :
    (changeSeries [100, 102, 101]).getD 0 0 = 0 ∧
    (changeSeries [100, 102, 101]).getD 2 0 =
      ([100, 102, 101] : List ℤ).getD 2 0 - ([100, 102, 101] : List ℤ).getD 1 0 :=
  ⟨(c9_day_over_day [100, 102, 101]).2.1 (by decide),
   (c9_day_over_day [100, 102, 101]).2.2 2 (by decide) (by decide)⟩

/-! ### C7 — quarter resolution -/

/-- C7: every token accepted by the quarter regex resolves to the literal
first and last calendar day of its quarter, and the previous-quarter end
decrements the quarter, wrapping Q1 to December 31 of the prior year; in
particular `2026-Q1` resolves to `[2026-01-01, 2026-03-31]` with previous
quarter end `2025-12-31`.  (The year bounds `1 ≤ y` / `2 ≤ y` mirror
Python `datetime.MINYEAR`: the source would raise constructing a date in
year 0, which this embedding does not model.) -/
theorem c7_quarter_resolution :
    (∀ s : String, ∀ y : ℤ, ∀ q : ℕ, 1 ≤ y → parseQuarterToken s = some (y, q) →
      (q = 1 → parse_quarter s = some (⟨y, 1, 1⟩, ⟨y, 3, 31⟩)) ∧
      (q = 2 → parse_quarter s = some (⟨y, 4, 1⟩, ⟨y, 6, 30⟩)) ∧
      (q = 3 → parse_quarter s = some (⟨y, 7, 1⟩, ⟨y, 9, 30⟩)) ∧
      (q = 4 → parse_quarter s = some (⟨y, 10, 1⟩, ⟨y, 12, 31⟩)) ∧
      (q = 1 → 2 ≤ y → get_previous_quarter_end s = some ⟨y - 1, 12, 31⟩) ∧
      (q = 2 → get_previous_quarter_end s = some ⟨y, 3, 31⟩) ∧
      (q = 3 → get_previous_quarter_end s = some ⟨y, 6, 30⟩) ∧
      (q = 4 → get_previous_quarter_end s = some ⟨y, 9, 30⟩)) ∧
    parse_quarter "2026-Q1" = some (⟨2026, 1, 1⟩, ⟨2026, 3, 31⟩) ∧
    get_previous_quarter_end "2026-Q1" = some ⟨2025, 12, 31⟩ := by
  refine ⟨?_, by decide, by decide⟩
  intro s y q _ htok
  refine ⟨?_, ?_, ?_, ?_, ?_, ?_, ?_, ?_⟩
  all_goals intro hq
  · subst hq; simp [parse_quarter, htok, prevDay, daysInMonth]
  · subst hq; simp [parse_quarter, htok, prevDay, daysInMonth]
  · subst hq; simp [parse_quarter, htok, prevDay, daysInMonth]
  · subst hq; simp [parse_quarter, htok, prevDay, daysInMonth]
  · subst hq; intro _; simp [get_previous_quarter_end, htok, prevDay, daysInMonth]
  · subst hq; simp [get_previous_quarter_end, htok, prevDay, daysInMonth]
  · subst hq; simp [get_previous_quarter_end, htok, prevDay, daysInMonth]
  · subst hq; simp [get_previous_quarter_end, htok, prevDay, daysInMonth]

/-- C7 witness at the token `2026-Q2`. -/
theorem c7_quarter_resolution_witness :
    parse_quarter "2026-Q2" = some (⟨2026, 4, 1⟩, ⟨2026, 6, 30⟩) ∧
    get_previous_quarter_end "2026-Q2" = some ⟨2026, 3, 31⟩ := by
  have h := c7_quarter_resolution.1 "2026-Q2" 2026 2 (by norm_num) (by decide)
  exact ⟨h.2.1 rfl, h.2.2.2.2.2.1 rfl⟩

/-! ### C8 — unparseable period tokens -/

/-- C8 counterexample: the token `2026-Q5` does not parse, yet the
rankings date resolution raises no error and produces a resolved target
date (the latest snapshot) with no baseline, from which the operation
returns an ordinary successful page; no invalid-period error exists in
the code. -/
theorem c8_counterexample :
    parseQuarterToken "2026-Q5" = none ∧
    parse_quarter "2026-Q5" = none ∧
    resolveCountryRankingDates [⟨some "US", ⟨2026, 2, 11⟩, false, some 100⟩] "2026-Q5" =
      some (⟨2026, 2, 11⟩, none) := by
  refine ⟨by decide, by decide, by decide⟩

/-- C8 (amended): a non-empty token that fails the quarter regex is
silently ignored — `parse_quarter` returns the no-dates sentinel, the
target date falls back to the globally latest snapshot, and the baseline
is absent; no error is reported. -/
theorem c8_invalid_token_fallback (store : List CountryRegionRow) (q : String)
    (hq : q ≠ "") (hp : parseQuarterToken q = none) :
    resolveCountryRankingDates store q =
      (maxDate ((store.filter (fun r => !r.delete_flag)).map (fun r => r.record_date))).map
        (fun d => (d, none)) := by
  have h1 : parse_quarter q = none := by simp [parse_quarter, hp]
  have h2 : get_previous_quarter_end q = none := by simp [get_previous_quarter_end, hp]
  rw [resolveCountryRankingDates]
  simp only [h1, Option.map]
  cases hmax : maxDate ((store.filter fun r => !r.delete_flag).map fun r => r.record_date) with
  | none => simp [hmax]
  | some d => simp [hmax, hq, h2]

/-- C8 witness: one snapshot row and the malformed token `bad`. -/
theorem c8_invalid_token_fallback_witness :
    resolveCountryRankingDates [⟨some "US", ⟨2026, 2, 11⟩, false, some 100⟩] "bad" =
      some (⟨2026, 2, 11⟩, none) := by
  have h := c8_invalid_token_fallback [⟨some "US", ⟨2026, 2, 11⟩, false, some 100⟩] "bad"
    (by decide) (by decide)
  simpa [maxDate] using h

/-! ### C10 — user identifier normalization -/

theorem upperStr_empty_iff (s : String) : upperStr s = "" ↔ s = "" := by
  constructor
  · intro h
    have hd := congrArg String.data h
    simp only [upperStr, List.map_eq_nil_iff] at hd
    cases s with
    | mk d => simp only at hd; subst hd; rfl
  · intro h
    subst h
    rfl

theorem filter_user_restrict (store : List ConsultantUserRow) (n : String)
    (p : ConsultantUserRow → Bool) (hp : ∀ r, p r = true → (r.user == n) = true) :
    (store.filter (fun r => r.user == n)).filter p = store.filter p := by
  rw [List.filter_filter]
  apply List.filter_congr
  intro a _
  rcases hpa : p a with _ | _
  · simp
  · simp [hp a hpa]

/-- C10: `get_user_weight_time_series` strips and upper-cases the
caller-supplied identifier before any store access; an empty or
whitespace-only identifier returns the empty envelope for every store
(the store is never consulted), and otherwise the result carries the
normalized identifier and depends only on the rows whose user equals it. -/
theorem c10_user_normalization :
    (∀ store : List ConsultantUserRow, ∀ s0 e0 : Option ℤ, ∀ u : String,
      stripStr u = "" → get_user_weight_time_series store u s0 e0 = ⟨"", [], []⟩) ∧
    (∀ store : List ConsultantUserRow, ∀ s0 e0 : Option ℤ, ∀ u : String,
      stripStr u ≠ "" →
      (get_user_weight_time_series store u s0 e0).user = upperStr (stripStr u) ∧
      get_user_weight_time_series store u s0 e0 =
        get_user_weight_time_series
          (store.filter (fun r => r.user == upperStr (stripStr u))) u s0 e0) := by
  constructor
  · intro store s0 e0 u h
    by_cases hu : u = ""
    · subst hu
      delta get_user_weight_time_series
      rfl
    · delta get_user_weight_time_series
      simp only [if_neg hu, h]
      rw [if_pos (show upperStr "" = "" from rfl)]
  · intro store s0 e0 u h
    have hu : u ≠ "" := by
      intro e
      subst e
      exact h rfl
    have hn : upperStr (stripStr u) ≠ "" := by
      intro e
      exact h ((upperStr_empty_iff _).mp e)
    set n := upperStr (stripStr u) with hn_def
    have h1 :
        (store.filter (fun r => r.user == n)).filter
            (fun r => !r.delete_flag && r.user == n) =
          store.filter (fun r => !r.delete_flag && r.user == n) := by
      apply filter_user_restrict
      intro r hr
      simp only [Bool.and_eq_true] at hr
      exact hr.2
    have h2 : ∀ s e : ℤ,
        (store.filter (fun r => r.user == n)).filter
            (fun r => !r.delete_flag && r.user == n
              && decide (s ≤ r.record_date) && decide (r.record_date ≤ e)) =
          store.filter
            (fun r => !r.delete_flag && r.user == n
              && decide (s ≤ r.record_date) && decide (r.record_date ≤ e)) := by
      intro s e
      apply filter_user_restrict
      intro r hr
      simp only [Bool.and_eq_true] at hr
      exact hr.1.1.2
    constructor
    · delta get_user_weight_time_series
      simp only [if_neg hu, if_neg hn, ← hn_def]
      cases s0 with
      | some sv =>
        cases e0 with
        | some ev => rfl
        | none =>
          cases hm : maxOrd ((store.filter fun r => !r.delete_flag && r.user == n).map
              fun r => r.record_date) with
          | none => rfl
          | some latest => rfl
      | none =>
        cases hm : maxOrd ((store.filter fun r => !r.delete_flag && r.user == n).map
            fun r => r.record_date) with
        | none => rfl
        | some latest => rfl
    · delta get_user_weight_time_series
      simp only [if_neg hu, if_neg hn, ← hn_def]
      simp only [h1, h2]

/-- C10 witness: a whitespace-only identifier yields the empty envelope
on a non-empty store; a padded lower-case identifier is normalized. -/
theorem c10_user_normalization_witness :
    get_user_weight_time_series [⟨"U1", 5, some 3, false⟩] "   " none none = ⟨"", [], []⟩ ∧
    (get_user_weight_time_series [⟨"U1", 5, some 3, false⟩] " u1 " none none).user =
      upperStr (stripStr " u1 ") :=
  ⟨c10_user_normalization.1 [⟨"U1", 5, some 3, false⟩] none none "   " (by decide),
   (c10_user_normalization.2 [⟨"U1", 5, some 3, false⟩] none none " u1 " (by decide)).1⟩

/-! ### C1 — delta and delta-percent policy -/

/-- C1 counterexample: in `get_genius_user_weight_changes`, a user whose
baseline (first observed) weight is 0 and whose current weight is 5 gets
a null `weight_change_percent`, not 100.0 as the claim requires for a
zero baseline with non-zero current value. -/
theorem c1_counterexample :
    (get_genius_user_weight_changes
        [⟨"U1", none, none, 1, some 0⟩, ⟨"U1", none, none, 2, some 5⟩] "desc").map
      (fun r => (r.entry.start_weight, r.entry.end_weight, r.entry.weight_change_percent)) =
    [(0, 5, none)] := by
  simp [get_genius_user_weight_changes, geniusFold, finalizeGeniusEntry, updGeniusEntry,
    sortGeniusResults, assignRankPercentile, List.mergeSort, percentileOf]

/-- C1 (amended): delta is current minus baseline wherever a baseline
exists.  In the country leaderboard, delta-percent is
`(delta/baseline)*100` for a non-zero baseline and 100.0 when the
baseline value is zero or the baseline row is absent (growth from zero).
In the genius user weight-change ranking the baseline is the first
observed weight and a zero baseline yields a null delta-percent (not
100.0).  Value-factor comparisons exclude an entity with an absent
baseline from the comparable output entirely. -/
theorem c1_delta_policy :
    (∀ c h : ℚ, h ≠ 0 → countryWeightChange c (some h) = (c - h, (c - h) / h * 100)) ∧
    (∀ c : ℚ, countryWeightChange c (some 0) = (c, 100)) ∧
    (∀ c : ℚ, countryWeightChange c none = (c, 100)) ∧
    (∀ e : GeniusEntry,
      (finalizeGeniusEntry e).weight_change = e.end_weight - e.start_weight ∧
      (e.start_weight ≠ 0 → (finalizeGeniusEntry e).weight_change_percent =
        some ((e.end_weight - e.start_weight) / e.start_weight * 100)) ∧
      (e.start_weight = 0 → (finalizeGeniusEntry e).weight_change_percent = none)) ∧
    (∀ (exclude : Bool) (rows : List VFRow), ∀ cr ∈ (vfCollect exclude rows).rows,
      ∃ r ∈ rows, cr.user = r.user ∧ r.target_value_factor = some cr.target_value_factor ∧
        r.base_value_factor = some cr.base_value_factor) := by
  refine ⟨?_, ?_, ?_, ?_, ?_⟩
  · intro c h hne
    simp [countryWeightChange, hne]
  · intro c
    simp [countryWeightChange]
  · intro c
    simp [countryWeightChange]
  · intro e
    refine ⟨rfl, ?_, ?_⟩
    · intro hne
      simp [finalizeGeniusEntry, hne]
    · intro hz
      simp [finalizeGeniusEntry, hz]
  · intro exclude rows
    induction rows with
    | nil =>
      intro cr hcr
      simp [vfCollect] at hcr
    | cons r rest ih =>
      intro cr hcr
      rw [vfCollect] at hcr
      rcases List.mem_append.mp hcr with hl | hr
      · rcases ht : r.target_value_factor with _ | t
        · rw [ht] at hl
          simp at hl
        · rcases hb : r.base_value_factor with _ | b
          · rw [ht, hb] at hl
            simp at hl
          · rw [ht, hb] at hl
            by_cases hex : (exclude && vfBothHalf b t) = true
            · simp [hex] at hl
            · simp [hex] at hl
              subst hl
              exact ⟨r, List.mem_cons_self r rest, rfl, by rw [ht], by rw [hb]⟩
      · obtain ⟨r2, hr2, hfields⟩ := ih cr hr
        exact ⟨r2, List.mem_cons_of_mem r hr2, hfields⟩

/-- C1 witness: concrete instances of each branch of the policy. -/
theorem c1_delta_policy_witness :
    countryWeightChange 15 (some 10) = (15 - 10, (15 - 10) / 10 * 100) ∧
    (finalizeGeniusEntry ⟨"U1", none, none, 0, 5⟩).weight_change_percent = none ∧
    (finalizeGeniusEntry ⟨"U2", none, none, 10, 15⟩).weight_change_percent =
      some ((15 - 10) / 10 * 100) ∧
    (∃ r ∈ ([⟨"U3", some 1, some 0, none, none, none⟩] : List VFRow),
      (⟨"U3", none, none, none, 0, 1, 1⟩ : VFComparable).user = r.user ∧
      r.target_value_factor =
        some (⟨"U3", none, none, none, 0, 1, 1⟩ : VFComparable).target_value_factor ∧
      r.base_value_factor =
        some (⟨"U3", none, none, none, 0, 1, 1⟩ : VFComparable).base_value_factor) :=
  ⟨c1_delta_policy.1 15 10 (by norm_num),
   (c1_delta_policy.2.2.2.1 ⟨"U1", none, none, 0, 5⟩).2.2 rfl,
   by
    have := (c1_delta_policy.2.2.2.1 ⟨"U2", none, none, 10, 15⟩).2.1 (by norm_num)
    simpa using this,
   c1_delta_policy.2.2.2.2 false [⟨"U3", some 1, some 0, none, none, none⟩]
     ⟨"U3", none, none, none, 0, 1, 1⟩ (by norm_num [vfCollect, vfBothHalf])⟩

/-! ### C3 — membership partition of cohort comparisons -/

/-- C3 counterexample: with the both-half exclusion enabled, a user
measured at 0.5 on both dates is counted in none of
comparable/new/missing, so their sum (0) undercounts the union of
entities measured on at least one date (1). -/
theorem c3_counterexample :
    ((vfCollect true [⟨"U1", some (1/2), some (1/2), none, none, none⟩]).rows.length +
        (vfCollect true [⟨"U1", some (1/2), some (1/2), none, none, none⟩]).new_users +
        (vfCollect true [⟨"U1", some (1/2), some (1/2), none, none, none⟩]).missing_users = 0) ∧
    (([⟨"U1", some (1/2), some (1/2), none, none, none⟩] : List VFRow).filter
        (fun r => r.target_value_factor.isSome || r.base_value_factor.isSome)).length = 1 := by
  constructor
  · norm_num [vfCollect, vfBothHalf]
  · norm_num

theorem lookup_isSome_of_mem_keys (l : List (String × ℚ)) (u : String)
    (hu : u ∈ l.map Prod.fst) : (l.lookup u).isSome := by
  induction l with
  | nil => simp at hu
  | cons p rest ih =>
    rcases p with ⟨k, v⟩
    simp only [List.map_cons, List.mem_cons] at hu
    by_cases he : u = k
    · simp [List.lookup, he]
    · have hbe : (u == k) = false := by simp [he]
      rcases hu with h1 | h2
      · exact absurd h1 he
      · simp only [List.lookup, hbe]
        exact ih h2

/-- C3 (amended): with no exclusion filter (and, for combined, no
dimension filter) active, comparable + new + missing equals the number of
entities measured on at least one of the two dates; in particular, over
the reconstructed user union it equals the union's size.  Entities with
no measured value on either date are counted nowhere.  (When an exclusion
or dimension filter is active it removes entities from the comparable
count but not from new/missing, so the sum can undercount the union, as
the counterexample shows.) -/
theorem c3_membership_partition :
    (∀ rows : List VFRow,
      (vfCollect false rows).rows.length + (vfCollect false rows).new_users +
        (vfCollect false rows).missing_users =
      (rows.filter (fun r =>
        r.target_value_factor.isSome || r.base_value_factor.isSome)).length) ∧
    (∀ rows : List CombRow,
      (collect_combined_rows combNoFilters rows).rows.length +
        (collect_combined_rows combNoFilters rows).new_users +
        (collect_combined_rows combNoFilters rows).missing_users =
      (rows.filter (fun r => combTargetReady r || combBaseReady r)).length) ∧
    (∀ target base : List (String × ℚ),
      (vfCollect false (mkVFRows target base)).rows.length +
        (vfCollect false (mkVFRows target base)).new_users +
        (vfCollect false (mkVFRows target base)).missing_users =
      (unionUsers target base).length) := by
  have hvf : ∀ rows : List VFRow,
      (vfCollect false rows).rows.length + (vfCollect false rows).new_users +
        (vfCollect false rows).missing_users =
      (rows.filter (fun r =>
        r.target_value_factor.isSome || r.base_value_factor.isSome)).length := by
    intro rows
    induction rows with
    | nil => simp [vfCollect]
    | cons r rest ih =>
      rcases ht : r.target_value_factor with _ | t <;>
        rcases hb : r.base_value_factor with _ | b <;>
        simp [vfCollect, ht, hb, List.filter_cons] <;>
        omega
  refine ⟨hvf, ?_, ?_⟩
  · intro rows
    induction rows with
    | nil => simp [collect_combined_rows]
    | cons r rest ih =>
      rcases hta : r.target_alpha with _ | ta <;>
        rcases htp : r.target_power_pool with _ | tp <;>
        rcases hts : r.target_selected with _ | ts <;>
        rcases hba : r.base_alpha with _ | ba <;>
        rcases hbp : r.base_power_pool with _ | bp <;>
        rcases hbs : r.base_selected with _ | bs <;>
        simp [collect_combined_rows, combNoFilters, combTargetReady, combBaseReady,
          filterPass, hta, htp, hts, hba, hbp, hbs, List.filter_cons] at ih ⊢ <;>
        omega
  · intro target base
    rw [hvf (mkVFRows target base)]
    have hall : (mkVFRows target base).filter
        (fun r => r.target_value_factor.isSome || r.base_value_factor.isSome) =
        mkVFRows target base := by
      apply List.filter_eq_self.mpr
      intro r hr
      rcases List.mem_map.mp hr with ⟨u, hu, rfl⟩
      have hu2 : u ∈ (target.map Prod.fst) ++ (base.map Prod.fst) := List.mem_dedup.mp hu
      rcases List.mem_append.mp hu2 with h | h
      · simp [lookup_isSome_of_mem_keys target u h]
      · simp [lookup_isSome_of_mem_keys base u h]
    rw [hall]
    simp [mkVFRows]

/-! ### C4 — exclusion filters apply before aggregates -/

set_option maxHeartbeats 3200000 in
/-- C4: enabling an exclusion filter is the same as deleting the
near-midpoint (value factor, eps 1e-9 around 0.5) or near-zero (combined
alpha, eps 1e-12 around 0) rows from the input before collecting: the
comparable rows coincide, so every count, average, median and histogram
computed from them coincides, no excluded row survives, and the test is a
strict epsilon comparison that also catches values merely close to the
midpoint. -/
theorem c4_exclusion_before_aggregates :
    (∀ rows : List VFRow,
      (vfCollect true rows).rows =
        (vfCollect false (rows.filter (fun r => !vfExcludedRow r))).rows) ∧
    (∀ rows : List VFRow, ∀ cr ∈ (vfCollect true rows).rows,
      ¬(|cr.base_value_factor - 1/2| < 1/1000000000 ∧
        |cr.target_value_factor - 1/2| < 1/1000000000)) ∧
    (∀ rows : List VFRow,
      vfSummary (vfCollect true rows).rows =
        vfSummary ((vfCollect false (rows.filter (fun r => !vfExcludedRow r))).rows) ∧
      build_distribution ((vfCollect true rows).rows.map (fun r => r.change)) 10 =
        build_distribution
          (((vfCollect false (rows.filter (fun r => !vfExcludedRow r))).rows).map
            (fun r => r.change)) 10) ∧
    (vfBothHalf (1/2 + 1/10000000000) (1/2) = true ∧
      (1/2 + 1/10000000000 : ℚ) ≠ 1/2) ∧
    (∀ rows : List CombRow,
      (collect_combined_rows combExAlphaOnly rows).rows =
        (collect_combined_rows combNoFilters
          (rows.filter (fun r => !combAlphaExcludedRow r))).rows) ∧
    (∀ rows : List CombRow,
      build_distribution
          ((collect_combined_rows combExAlphaOnly rows).rows.map
            (fun r => r.alpha_change)) 10 =
        build_distribution
          ((collect_combined_rows combNoFilters
            (rows.filter (fun r => !combAlphaExcludedRow r))).rows.map
              (fun r => r.alpha_change)) 10) := by
  have hvf : ∀ rows : List VFRow,
      (vfCollect true rows).rows =
        (vfCollect false (rows.filter (fun r => !vfExcludedRow r))).rows := by
    intro rows
    induction rows with
    | nil => rfl
    | cons r rest ih =>
      rcases ht : r.target_value_factor with _ | t <;>
        rcases hb : r.base_value_factor with _ | b
      · simp [vfCollect, vfExcludedRow, ht, hb, List.filter_cons, ih]
      · simp [vfCollect, vfExcludedRow, ht, hb, List.filter_cons, ih]
      · simp [vfCollect, vfExcludedRow, ht, hb, List.filter_cons, ih]
      · by_cases hex : vfBothHalf b t = true
        · simp [vfCollect, vfExcludedRow, ht, hb, hex, List.filter_cons, ih]
        · simp [vfCollect, vfExcludedRow, ht, hb, hex, List.filter_cons, ih]
  have hcomb : ∀ rows : List CombRow,
      (collect_combined_rows combExAlphaOnly rows).rows =
        (collect_combined_rows combNoFilters
          (rows.filter (fun r => !combAlphaExcludedRow r))).rows := by
    intro rows
    induction rows with
    | nil => rfl
    | cons r rest ih =>
      rcases hta : r.target_alpha with _ | ta <;>
        rcases htp : r.target_power_pool with _ | tp <;>
        rcases hts : r.target_selected with _ | ts <;>
        rcases hba : r.base_alpha with _ | ba <;>
        rcases hbp : r.base_power_pool with _ | bp <;>
        rcases hbs : r.base_selected with _ | bs <;>
        first
          | (by_cases hex : (nearZero12 ba && nearZero12 ta) = true <;>
              simp [collect_combined_rows, combExAlphaOnly, combNoFilters,
                combAlphaExcludedRow, filterPass, hta, htp, hts, hba, hbp, hbs, hex,
                List.filter_cons] at ih ⊢ <;>
              simp [ih])
          | (simp [collect_combined_rows, combExAlphaOnly, combNoFilters,
              combAlphaExcludedRow, filterPass, hta, htp, hts, hba, hbp, hbs,
              List.filter_cons] at ih ⊢ <;>
             simp [ih])
  refine ⟨hvf, ?_, ?_, ?_, hcomb, ?_⟩
  · intro rows
    induction rows with
    | nil =>
      intro cr hcr
      simp [vfCollect] at hcr
    | cons r rest ih =>
      intro cr hcr
      rw [vfCollect] at hcr
      rcases List.mem_append.mp hcr with hl | hr
      · rcases ht : r.target_value_factor with _ | t
        · rw [ht] at hl
          simp at hl
        · rcases hb : r.base_value_factor with _ | b
          · rw [ht, hb] at hl
            simp at hl
          · rw [ht, hb] at hl
            by_cases hex : vfBothHalf b t = true
            · simp [hex] at hl
            · simp [hex] at hl
              subst hl
              simpa [vfBothHalf] using hex
      · exact ih cr hr
  · intro rows
    exact ⟨by rw [hvf rows], by rw [hvf rows]⟩
  · constructor
    · norm_num [vfBothHalf, abs_lt]
    · norm_num
  · intro rows
    rw [hcomb rows]

/-- C4 witness: a comparable row away from the midpoint survives the
enabled exclusion, and the no-excluded-row fact instantiated there. -/
theorem c4_exclusion_witness :
    (vfCollect true [⟨"U1", some 1, some 0, none, none, none⟩]).rows =
      (vfCollect false
        (([⟨"U1", some 1, some 0, none, none, none⟩] : List VFRow).filter
          (fun r => !vfExcludedRow r))).rows ∧
    ¬(|((0 : ℚ)) - 1/2| < 1/1000000000 ∧ |((1 : ℚ)) - 1/2| < 1/1000000000) := by
  constructor
  · exact c4_exclusion_before_aggregates.1 [⟨"U1", some 1, some 0, none, none, none⟩]
  · have h := c4_exclusion_before_aggregates.2.1 [⟨"U1", some 1, some 0, none, none, none⟩]
      ⟨"U1", none, none, none, 0, 1, 1⟩ (by norm_num [vfCollect, vfBothHalf, abs_lt])
    simpa [abs_lt] using h

/-! ### C5 — histogram construction -/

theorem bumpAt_length (l : List ℕ) (i : ℕ) : (bumpAt l i).length = l.length := by
  induction l generalizing i with
  | nil => rfl
  | cons c cs ih =>
    cases i with
    | zero => rfl
    | succ n => simp [bumpAt, ih]

theorem bumpAt_sum (l : List ℕ) (i : ℕ) (h : i < l.length) :
    (bumpAt l i).sum = l.sum + 1 := by
  induction l generalizing i with
  | nil => simp at h
  | cons c cs ih =>
    cases i with
    | zero =>
      simp [bumpAt]
      omega
    | succ n =>
      have hn : n < cs.length := by simpa using h
      simp [bumpAt, ih n hn]
      omega

theorem bumpAt_getD (l : List ℕ) (i j : ℕ) (hj : j < l.length) :
    (bumpAt l i).getD j 0 = l.getD j 0 + (if i = j then 1 else 0) := by
  induction l generalizing i j with
  | nil => simp at hj
  | cons c cs ih =>
    cases i with
    | zero =>
      cases j with
      | zero => simp [bumpAt]
      | succ m => simp [bumpAt]
    | succ n =>
      cases j with
      | zero => simp [bumpAt]
      | succ m =>
        have hm : m < cs.length := by simpa using hj
        have hrec := ih n m hm
        simpa [bumpAt, List.getD_eq_getElem?_getD] using hrec

theorem foldl_bump_length (vs : List ℚ) (F : ℚ → ℕ) (acc : List ℕ) :
    (vs.foldl (fun a v => bumpAt a (F v)) acc).length = acc.length := by
  induction vs generalizing acc with
  | nil => rfl
  | cons v vs ih => rw [List.foldl_cons, ih, bumpAt_length]

theorem foldl_bump_sum (vs : List ℚ) (F : ℚ → ℕ) (acc : List ℕ)
    (h : ∀ v ∈ vs, F v < acc.length) :
    (vs.foldl (fun a v => bumpAt a (F v)) acc).sum = acc.sum + vs.length := by
  induction vs generalizing acc with
  | nil => simp
  | cons v vs ih =>
    rw [List.foldl_cons,
      ih _ (fun w hw => by
        rw [bumpAt_length]
        exact h w (List.mem_cons_of_mem _ hw)),
      bumpAt_sum acc (F v) (h v (List.mem_cons_self _ _))]
    simp
    omega

theorem foldl_bump_getD (vs : List ℚ) (F : ℚ → ℕ) (acc : List ℕ) (j : ℕ)
    (hj : j < acc.length) :
    (vs.foldl (fun a v => bumpAt a (F v)) acc).getD j 0 =
      acc.getD j 0 + (vs.filter (fun v => F v == j)).length := by
  induction vs generalizing acc with
  | nil => simp
  | cons v vs ih =>
    rw [List.foldl_cons,
      ih _ (by rw [bumpAt_length]; exact hj),
      bumpAt_getD acc (F v) j hj, List.filter_cons]
    by_cases he : F v = j
    · simp [he]
      omega
    · simp [he]

theorem binIdx_lt (minValue step : ℚ) (bins : ℕ) (hb : 0 < bins) (v : ℚ) :
    binIdx minValue step bins v < bins :=
  lt_of_le_of_lt (min_le_right _ _) (Nat.sub_lt hb one_pos)

theorem pyint_eq_floor (q : ℚ) (h : 0 ≤ q) : pyint q = ⌊q⌋ := by
  rw [pyint, if_neg (not_lt.mpr h)]

theorem listMin_le_init (xs : List ℚ) : ∀ x : ℚ, listMin x xs ≤ x := by
  induction xs with
  | nil => intro x; exact le_refl x
  | cons y ys ih =>
    intro x
    exact le_trans (ih (min x y)) (min_le_left _ _)

theorem le_listMax_init (xs : List ℚ) : ∀ x : ℚ, x ≤ listMax x xs := by
  induction xs with
  | nil => intro x; exact le_refl x
  | cons y ys ih =>
    intro x
    exact le_trans (le_max_left x y) (ih (max x y))

theorem listMin_le_mem (xs : List ℚ) : ∀ x v : ℚ, v ∈ x :: xs → listMin x xs ≤ v := by
  induction xs with
  | nil =>
    intro x v hv
    rcases List.mem_singleton.mp hv with rfl
    exact le_refl v
  | cons y ys ih =>
    intro x v hv
    rcases List.mem_cons.mp hv with h1 | h2
    · subst h1
      exact listMin_le_init (y :: ys) v
    · rcases List.mem_cons.mp h2 with h3 | h4
      · subst h3
        exact le_trans (listMin_le_init ys (min x v)) (min_le_right _ _)
      · exact ih (min x y) v (List.mem_cons_of_mem _ h4)

theorem mem_le_listMax (xs : List ℚ) : ∀ x v : ℚ, v ∈ x :: xs → v ≤ listMax x xs := by
  induction xs with
  | nil =>
    intro x v hv
    rcases List.mem_singleton.mp hv with rfl
    exact le_refl v
  | cons y ys ih =>
    intro x v hv
    rcases List.mem_cons.mp hv with h1 | h2
    · subst h1
      exact le_listMax_init (y :: ys) v
    · rcases List.mem_cons.mp h2 with h3 | h4
      · subst h3
        exact le_trans (le_max_right x v) (le_listMax_init ys (max x v))
      · exact ih (max x y) v (List.mem_cons_of_mem _ h4)

theorem replicate_zero_getD (n j : ℕ) : (List.replicate n (0 : ℕ)).getD j 0 = 0 := by
  rw [List.getD_eq_getElem?_getD, List.getElem?_replicate]
  by_cases h : j < n <;> simp [h]

/-- C5: for a non-empty value list and a positive bin count, the
histogram of `_build_distribution` assigns each value the bin index
`min(floor((v - min) / step), bins - 1)` with `step = (max - min)/bins`,
its per-bin counts sum to the number of values (each count being the
number of values assigned to that bin), and when all values are equal the
result is a single bin labelled by that value holding all of them. -/
theorem c5_histogram (values : List ℚ) (bins : ℕ) (hb : 0 < bins) :
    (values ≠ [] → (build_distribution values bins).counts.sum = values.length) ∧
    (∀ v0 rest, values = v0 :: rest → listMin v0 rest = listMax v0 rest →
      build_distribution values bins =
        ⟨[(listMin v0 rest, listMin v0 rest)], [values.length]⟩) ∧
    (∀ v0 rest, values = v0 :: rest → listMin v0 rest ≠ listMax v0 rest →
      (∀ v ∈ values,
        binIdx (listMin v0 rest) ((listMax v0 rest - listMin v0 rest) / bins) bins v =
          min (⌊(v - listMin v0 rest) /
                ((listMax v0 rest - listMin v0 rest) / bins)⌋.toNat) (bins - 1)) ∧
      (build_distribution values bins).counts.length = bins ∧
      (∀ j, j < bins →
        (build_distribution values bins).counts.getD j 0 =
          (values.filter (fun v =>
            binIdx (listMin v0 rest) ((listMax v0 rest - listMin v0 rest) / bins) bins v
              == j)).length)) := by
  refine ⟨?_, ?_, ?_⟩
  · intro hne
    rcases values with _ | ⟨v0, rest⟩
    · exact absurd rfl hne
    rw [build_distribution]
    by_cases hdeg : listMin v0 rest = listMax v0 rest
    · simp [hdeg]
    · rw [if_neg hdeg]
      simp only
      rw [foldl_bump_sum _ _ _ (fun v hv => by
        simpa [List.length_replicate] using
          binIdx_lt (listMin v0 rest) ((listMax v0 rest - listMin v0 rest) / bins) bins hb v)]
      simp
  · intro v0 rest hval hdeg
    subst hval
    rw [build_distribution, if_pos hdeg]
  · intro v0 rest hval hdeg
    subst hval
    have hminmax : listMin v0 rest < listMax v0 rest :=
      lt_of_le_of_ne
        (le_trans (listMin_le_init rest v0) (le_listMax_init rest v0)) hdeg
    have hstep : 0 < (listMax v0 rest - listMin v0 rest) / (bins : ℚ) := by
      apply div_pos (by linarith)
      exact_mod_cast hb
    refine ⟨?_, ?_, ?_⟩
    · intro v hv
      rw [binIdx, pyint_eq_floor _ (div_nonneg
        (sub_nonneg.mpr (listMin_le_mem rest v0 v hv)) (le_of_lt hstep))]
    · rw [build_distribution, if_neg hdeg]
      simp only
      rw [foldl_bump_length]
      simp
    · intro j hj
      rw [build_distribution, if_neg hdeg]
      simp only
      rw [foldl_bump_getD _ _ _ j (by simpa using hj), replicate_zero_getD]
      omega

/-- C5 witness: a two-value histogram sums to 2; an all-equal input
collapses to one bin. -/
theorem c5_histogram_witness :
    (build_distribution [0, 10] 10).counts.sum = 2 ∧
    build_distribution [5, 5] 10 = ⟨[(listMin 5 [5], listMin 5 [5])], [2]⟩ := by
  constructor
  · have h := (c5_histogram [0, 10] 10 (by norm_num)).1 (by simp)
    simpa using h
  · have h := (c5_histogram [5, 5] 10 (by norm_num)).2.1 5 [5] rfl
      (by norm_num [listMin, listMax])
    simpa using h

end WQ
